import Mathlib

/-!
Verification development for the Solvro error-handling library.

The development embeds two source modules:

* `lib/base.ts` — the `IBaseError` validators (`shallowIsIBaseError`,
  `isIBaseError`) and the normalizer `toIBaseError`.  Because the normalizer
  observes object identity (it may mutate its input in place, and its result
  may alias parts of the input), these functions are embedded over an explicit
  heap of JavaScript objects, with exceptions modelled by `Except`.
* `lib/reporting.ts` — `analyzeErrorStack` and `serializeErrorReport`.  These
  functions are specified over conformant `IBaseError` chains, never mutate
  anything, and never throw, so they are embedded as pure functions over a
  structural representation of conformant chains.
-/

/-! ## Heap model of JavaScript values (for `lib/base.ts`) -/

/-- Addresses of heap-allocated plain objects. -/
abbrev Addr := Nat

/-- JavaScript values as observed by `lib/base.ts`.  Plain objects live on a
heap and are referred to by address, so that aliasing and in-place mutation are
observable.  Arrays are kept inline: the library never mutates an array nor
relies on array identity.  Numbers are modelled as integers; no code path in
`base.ts` depends on fractional values. -/
inductive JVal where
  | jundefined : JVal
  | jnull : JVal
  | jbool (b : Bool) : JVal
  | jnum (n : Int) : JVal
  | jstr (s : String) : JVal
  | jarr (elems : List JVal) : JVal
  | jobj (a : Addr) : JVal

/-- A heap maps addresses to the field lists of plain objects
(own enumerable properties, in insertion order). -/
abbrev Heap := List (Addr × List (String × JVal))

/-- First-match association lookup (JavaScript property/heap lookup). -/
def assocFind {α : Type} {β : Type} [DecidableEq α] (k : α) :
    List (α × β) → Option β
  | [] => none
  | p :: ps => if p.1 = k then some p.2 else assocFind k ps

/-- Errors thrown by the embedded JavaScript code.  `typeError` models a
thrown `TypeError` (e.g. using `in` on `null`, or `JSON.stringify` meeting a
circular structure); `outOfFuel` models non-termination of the recursion
(only reachable on cyclic cause chains). -/
inductive JsErr where
  | typeError : JsErr
  | outOfFuel : JsErr

def isNull : JVal → Bool
  | .jnull => true
  | _ => false

def isUndefined : JVal → Bool
  | .jundefined => true
  | _ => false

def isJStr : JVal → Bool
  | .jstr _ => true
  | _ => false

def isJNum : JVal → Bool
  | .jnum _ => true
  | _ => false

def isJBool : JVal → Bool
  | .jbool _ => true
  | _ => false

/-- `Array.isArray`. -/
def isJArr : JVal → Bool
  | .jarr _ => true
  | _ => false

def getJStrD : JVal → String
  | .jstr s => s
  | _ => ""

def getJArrD : JVal → List JVal
  | .jarr xs => xs
  | _ => []

/-- `typeof v === "object"` (true for plain objects, arrays and `null`). -/
def typeofIsObject : JVal → Bool
  | .jobj _ => true
  | .jarr _ => true
  | .jnull => true
  | _ => false

/-- The own properties of a value: its field list when it is a plain object,
empty otherwise.  The property names probed by `base.ts` are never own
properties of arrays or primitives. -/
def objFields (h : Heap) (v : JVal) : List (String × JVal) :=
  match v with
  | .jobj a => (assocFind a h).getD []
  | _ => []

/-- The `in` operator, applied only where the source has already checked the
operand is an object (the one place where it can throw, `"message" in null`
inside the messages map, is modelled explicitly there). -/
def hasProp (h : Heap) (v : JVal) (k : String) : Bool :=
  (assocFind k (objFields h v)).isSome

/-- JavaScript property read `v.k` (absent properties read as `undefined`). -/
def getField (h : Heap) (v : JVal) (k : String) : JVal :=
  (assocFind k (objFields h v)).getD .jundefined

/-- JavaScript property assignment on a field list (shared by in-place
assignment and object spread): an existing key keeps its position and gets
the new value, a new key is appended. -/
def jsInsert {β : Type} (fs : List (String × β)) (k : String) (v : β) :
    List (String × β) :=
  if fs.any (fun p => p.1 == k) then
    fs.map (fun p => if p.1 == k then (k, v) else p)
  else
    fs ++ [(k, v)]

/-- In-place property assignment `obj.k = v` on the object at address `a`. -/
def setField (h : Heap) (a : Addr) (k : String) (v : JVal) : Heap :=
  h.map (fun p => if p.1 = a then (p.1, jsInsert p.2 k v) else p)

/-- In-place property deletion `delete obj.k` on the object at address `a`. -/
def delField (h : Heap) (a : Addr) (k : String) : Heap :=
  h.map (fun p => if p.1 = a then (p.1, p.2.filter (fun q => q.1 != k)) else p)

/-- An address not used by the heap. -/
def freshAddr (h : Heap) : Addr :=
  h.foldl (fun n p => max n (p.1 + 1)) 0

/-- Allocate a fresh plain object with the given fields. -/
def allocObj (h : Heap) (fs : List (String × JVal)) : Heap × Addr :=
  let a := freshAddr h
  (h ++ [(a, fs)], a)

/-- `String(v)` for the values that can reach the non-object branch of
`toIBaseError` (primitives and `null`). -/
def jsToString : JVal → String
  | .jundefined => "undefined"
  | .jnull => "null"
  | .jbool b => if b then "true" else "false"
  | .jnum n => toString n
  | .jstr s => s
  | .jarr _ => ""
  | .jobj _ => "[object Object]"

def jsonEscapeChar (c : Char) : String :=
  if c = '\\' then "\\\\"
  else if c = '"' then "\\\""
  else if c = '\n' then "\\n"
  else String.singleton c

def jsonQuote (s : String) : String :=
  "\"" ++ String.join (s.toList.map jsonEscapeChar) ++ "\""

/-- Serialize the elements of an array (`undefined` elements print as
`null`), given a serializer for single values. -/
def jsonStringifyList (f : JVal → Except JsErr (Option String)) :
    List JVal → Except JsErr (List String)
  | [] => .ok []
  | x :: xs =>
    match f x with
    | .error e => .error e
    | .ok os =>
      match jsonStringifyList f xs with
      | .error e => .error e
      | .ok ss => .ok ((os.getD "null") :: ss)

/-- Serialize the fields of an object (fields whose value serializes to
`undefined` are skipped), given a serializer for single values. -/
def jsonStringifyFields (f : JVal → Except JsErr (Option String)) :
    List (String × JVal) → Except JsErr (List String)
  | [] => .ok []
  | (k, x) :: xs =>
    match f x with
    | .error e => .error e
    | .ok os =>
      match jsonStringifyFields f xs with
      | .error e => .error e
      | .ok ss =>
        .ok (match os with
          | none => ss
          | some s => (jsonQuote k ++ ":" ++ s) :: ss)

/-- `JSON.stringify`.  The fuel bounds the nesting depth that is explored;
exhausting it models the `TypeError` thrown on circular structures.  Callers
pass a fuel that is ample for every acyclic structure they serialize. -/
def jsonStringify : Nat → Heap → JVal → Except JsErr (Option String)
  | 0, _, _ => .error .typeError
  | _ + 1, _, .jundefined => .ok none
  | _ + 1, _, .jnull => .ok (some "null")
  | _ + 1, _, .jbool b => .ok (some (if b then "true" else "false"))
  | _ + 1, _, .jnum n => .ok (some (toString n))
  | _ + 1, _, .jstr s => .ok (some (jsonQuote s))
  | fuel + 1, h, .jarr xs =>
    match jsonStringifyList (jsonStringify fuel h) xs with
    | .error e => .error e
    | .ok ss => .ok (some ("[" ++ String.intercalate "," ss ++ "]"))
  | fuel + 1, h, .jobj a =>
    match jsonStringifyFields (jsonStringify fuel h) (objFields h (.jobj a)) with
    | .error e => .error e
    | .ok ss => .ok (some ("\x7b" ++ String.intercalate "," ss ++ "\x7d"))

mutual

/-- Structural size of a value (used only to pick an ample stringify fuel). -/
def jvalSize : JVal → Nat
  | .jarr xs => 1 + jvalListSize xs
  | _ => 1

def jvalListSize : List JVal → Nat
  | [] => 0
  | x :: xs => jvalSize x + jvalListSize xs

end

/-- Combined size of all values stored in the heap. -/
def heapSize (h : Heap) : Nat :=
  h.foldl (fun n p => n + 1 + p.2.foldl (fun m q => m + jvalSize q.2) 0) 0

/-- Fuel that is ample for serializing any structure reachable without
revisiting a heap object. -/
def stringifyFuel (h : Heap) (v : JVal) : Nat :=
  heapSize h + jvalSize v + 1

/-! ### The validators of `lib/base.ts` -/

/-- One entry of the `messages` check inside `shallowIsIBaseError`:
`typeof value === "object" && value !== null && "message" in value &&
typeof value.message === "string"`. -/
def validIssueEntry (h : Heap) (m : JVal) : Bool :=
  typeofIsObject m && !isNull m && hasProp h m "message"
    && isJStr (getField h m "message")

/-- `shallowIsIBaseError` from `lib/base.ts`: verifies that the topmost error
conforms to the `IBaseError` interface, without inspecting `cause`. -/
def shallowIsIBaseError (h : Heap) (v : JVal) : Bool :=
  typeofIsObject v && !isNull v
    && hasProp h v "message" && isJStr (getField h v "message")
    -- code
    && (!hasProp h v "code" || isUndefined (getField h v "code")
        || isJStr (getField h v "code"))
    -- status
    && (!hasProp h v "status" || isUndefined (getField h v "status")
        || isJNum (getField h v "status"))
    -- messages
    && (!hasProp h v "messages" || isUndefined (getField h v "messages")
        || (isJArr (getField h v "messages")
            && (getJArrD (getField h v "messages")).all (validIssueEntry h)))
    -- stack
    && (!hasProp h v "stack" || isUndefined (getField h v "stack")
        || isJStr (getField h v "stack"))
    -- sensitive
    && (!hasProp h v "sensitive" || isUndefined (getField h v "sensitive")
        || isJBool (getField h v "sensitive"))
    -- silent
    && (!hasProp h v "silent" || isUndefined (getField h v "silent")
        || isJBool (getField h v "silent"))
    -- extraResponseFields
    && (!hasProp h v "extraResponseFields"
        || isUndefined (getField h v "extraResponseFields")
        || (typeofIsObject (getField h v "extraResponseFields")
            && !isNull (getField h v "extraResponseFields")
            && !hasProp h (getField h v "extraResponseFields") "error"))

/-- `isIBaseError` from `lib/base.ts`: `shallowIsIBaseError` plus a recursive
check of the `cause` chain.  The fuel only guards against cyclic chains, on
which the JavaScript recursion would not terminate. -/
def isIBaseError : Nat → Heap → JVal → Bool
  | 0, _, _ => false
  | fuel + 1, h, v =>
    typeofIsObject v && !isNull v && shallowIsIBaseError h v
      && (!hasProp h v "cause" || isUndefined (getField h v "cause")
          || isIBaseError fuel h (getField h v "cause"))

/-! ### The normalizer `toIBaseError` of `lib/base.ts` -/

/-- The `message` of a reconstructed error: the original `message` when it is
a string, otherwise `JSON.stringify` of the whole input with a placeholder
for an `undefined` serialization. -/
def reconMessage (h : Heap) (v : JVal) : Except JsErr String :=
  if hasProp h v "message" && isJStr (getField h v "message") then
    .ok (getJStrD (getField h v "message"))
  else
    match jsonStringify (stringifyFuel h v) h v with
    | .error e => .error e
    | .ok none =>
      .ok "<an error value so weird, that i\x27ve got zero idea how to handle it>"
    | .ok (some s) => .ok s

/-- A conditionally copied scalar field of the reconstructed error:
`if (k in error && ok(error.k)) reconstructed.k = error.k`. -/
def reconScalar (h : Heap) (v : JVal) (k : String) (ok : JVal → Bool) :
    List (String × JVal) :=
  if hasProp h v k && ok (getField h v k) then [(k, getField h v k)] else []

/-- The arrow function of `error.messages.map(...)` in the reconstruction
path.  Note the source checks only `typeof message === "object"` before
evaluating `"message" in message`, so a `null` entry throws a `TypeError`. -/
def mapMessageEntry (h : Heap) (m : JVal) : Except JsErr (JVal × Heap) :=
  match m with
  | .jstr s =>
    let r := allocObj h [("message", .jstr s)]
    .ok (.jobj r.2, r.1)
  | _ =>
    if typeofIsObject m && !isNull m && hasProp h m "message" then
      .ok (m, h)
    else if typeofIsObject m && isNull m then
      .error .typeError
    else
      match jsonStringify (stringifyFuel h m) h m with
      | .error e => .error e
      | .ok os =>
        let s := os.getD
          "<the original validation message was really weird and could not be serialized>"
        let r := allocObj h [("message", .jstr s)]
        .ok (.jobj r.2, r.1)

/-- `error.messages.map(...)` in the reconstruction path, threading the heap
through the allocations performed for coerced entries. -/
def mapMessages (h : Heap) : List JVal → Except JsErr (List JVal × Heap)
  | [] => .ok ([], h)
  | m :: rest =>
    match mapMessageEntry h m with
    | .error e => .error e
    | .ok (item, h') =>
      match mapMessages h' rest with
      | .error e => .error e
      | .ok (items, h'') => .ok (item :: items, h'')

/-- The `messages` field of the reconstructed error (present only when the
original `messages` is an array). -/
def reconMessages (h : Heap) (v : JVal) :
    Except JsErr (List (String × JVal) × Heap) :=
  if hasProp h v "messages" && isJArr (getField h v "messages") then
    match mapMessages h (getJArrD (getField h v "messages")) with
    | .error e => .error e
    | .ok (items, h') => .ok ([("messages", .jarr items)], h')
  else
    .ok ([], h)

/-- The `cause` field of the reconstructed error: recursively normalized when
present and neither `undefined` nor `null`. -/
def reconCause (recur : Heap → JVal → Except JsErr (JVal × Heap))
    (h : Heap) (v : JVal) : Except JsErr (List (String × JVal) × Heap) :=
  if hasProp h v "cause" && !isUndefined (getField h v "cause")
      && !isNull (getField h v "cause") then
    match recur h (getField h v "cause") with
    | .error e => .error e
    | .ok (c', h') => .ok ([("cause", c')], h')
  else
    .ok ([], h)

/-- The `extraResponseFields` handling of the reconstruction path: the
original object is installed by reference, and a present `error` key is
deleted from it in place. -/
def reconExtra (h : Heap) (v : JVal) : List (String × JVal) × Heap :=
  let erf := getField h v "extraResponseFields"
  if hasProp h v "extraResponseFields" && !isUndefined erf && !isNull erf
      && typeofIsObject erf then
    ([("extraResponseFields", erf)],
     if hasProp h erf "error" then
       match erf with
       | .jobj b => delField h b "error"
       | _ => h
     else h)
  else
    ([], h)

/-- The reconstruction path of `toIBaseError` (taken when the input is a
non-null object failing `shallowIsIBaseError`): rebuild a fresh object from
the individually valid parts.  Fields are read and effects performed in
source order: `message` (may stringify), `code`, `status`, `messages` (may
throw and allocate), `stack`, `sensitive`, `silent`, `cause` (recursion),
`extraResponseFields` (aliasing install plus in-place delete). -/
def reconstruct (recur : Heap → JVal → Except JsErr (JVal × Heap))
    (h : Heap) (v : JVal) : Except JsErr (JVal × Heap) :=
  match reconMessage h v with
  | .error e => .error e
  | .ok msg =>
    let codeFs := reconScalar h v "code" isJStr
    let statusFs := reconScalar h v "status" isJNum
    match reconMessages h v with
    | .error e => .error e
    | .ok (msgsFs, h1) =>
      let stackFs := reconScalar h1 v "stack" isJStr
      let sensitiveFs := reconScalar h1 v "sensitive" isJBool
      let silentFs := reconScalar h1 v "silent" isJBool
      match reconCause recur h1 v with
      | .error e => .error e
      | .ok (causeFs, h2) =>
        let er := reconExtra h2 v
        let fs := [("message", JVal.jstr msg)] ++ codeFs ++ statusFs
          ++ msgsFs ++ stackFs ++ sensitiveFs ++ silentFs ++ causeFs ++ er.1
        let al := allocObj er.2 fs
        .ok (.jobj al.2, al.1)

/-- The shallow-valid path of `toIBaseError`: correct the `cause` field of
the input object in place (delete a nullish `cause`, recursively normalize
otherwise) and return the very same object. -/
def inPlaceCauseFix (recur : Heap → JVal → Except JsErr (JVal × Heap))
    (h : Heap) (a : Addr) : Except JsErr (JVal × Heap) :=
  if hasProp h (.jobj a) "cause" then
    let c := getField h (.jobj a) "cause"
    if isUndefined c || isNull c then
      .ok (.jobj a, delField h a "cause")
    else
      match recur h c with
      | .error e => .error e
      | .ok (c', h') => .ok (.jobj a, setField h' a "cause" c')
  else
    .ok (.jobj a, h)

/-- `toIBaseError` from `lib/base.ts`.  The fuel only bounds the recursion
depth along `cause` links; exhausting it models the stack overflow a cyclic
cause chain would produce. -/
def toIBaseError : Nat → Heap → JVal → Except JsErr (JVal × Heap)
  | 0, _, _ => .error .outOfFuel
  | fuel + 1, h, v =>
    if !typeofIsObject v || isNull v then
      let r := allocObj h [("message", .jstr (jsToString v))]
      .ok (.jobj r.2, r.1)
    else if shallowIsIBaseError h v = false then
      reconstruct (toIBaseError fuel) h v
    else
      match v with
      | .jobj a => inPlaceCauseFix (toIBaseError fuel) h a
      | _ =>
        -- unreachable: only plain objects can pass the shallow check,
        -- since "message" is never an own property of an array
        .ok (v, h)

/-! ## Pure model of conformant chains (for `lib/reporting.ts`) -/

/-- Opaque JSON-encodable values carried by `extraResponseFields` and
`extraErrorIdentifiers`; the reporting code copies them without inspection. -/
inductive Json where
  | str (s : String) : Json
  | num (n : Int) : Json
  | bool (b : Bool) : Json
  | null : Json
  | arr (xs : List Json) : Json
  | obj (fs : List (String × Json)) : Json

/-- A validation issue, `{ message: string }`. -/
structure ValidationIssue where
  message : String
deriving DecidableEq

/-- One conformant node of an error chain: the fields of the `IBaseError`
interface except `cause`.  Optional fields are `Option`s; a field that is
`none` is absent (or `undefined`, which the traversal treats identically). -/
structure ErrNode where
  message : String
  code : Option String := none
  status : Option Int := none
  messages : Option (List ValidationIssue) := none
  stack : Option String := none
  sensitive : Option Bool := none
  silent : Option Bool := none
  extraResponseFields : Option (List (String × Json)) := none
  extraErrorIdentifiers : Option (List (String × Json)) := none

/-- A conformant `IBaseError` chain.  The recursive TypeScript interface is
represented by its traversal order: the top node followed by the nodes
reached through successive `cause` links (the chain is finite and acyclic by
the data-model invariant). -/
structure IBaseError where
  node : ErrNode
  causes : List ErrNode

/-- The accumulator of `analyzeErrorStack`'s traversal loop.  The source
also declares `let lastStack: string | undefined;` — note that no statement
in the loop body ever assigns to it. -/
structure AnalyzeAcc where
  status : Option Int := none
  code : Option String := none
  validationIssues : Option (List ValidationIssue) := none
  sensitive : Option Bool := none
  silent : Option Bool := none
  extraResponseFields : List (String × Json) := []
  extraErrorIdentifiers : List (String × Json) := []
  causeStack : List String := []
  lastStack : Option String := none

/-- The `extraResponseFields` merge loop of one traversal step: each entry is
added only when its key is not `"error"` and not already present. -/
def mergeResponseFields (acc : List (String × Json))
    (entries : List (String × Json)) : List (String × Json) :=
  entries.foldl
    (fun acc kv =>
      if kv.1 != "error" && !(acc.any (fun p => p.1 == kv.1)) then
        acc ++ [kv]
      else acc)
    acc

/-- The `extraErrorIdentifiers` merge loop of one traversal step: like
`mergeResponseFields` but with no excluded key. -/
def mergeErrorIdentifiers (acc : List (String × Json))
    (entries : List (String × Json)) : List (String × Json) :=
  entries.foldl
    (fun acc kv =>
      if !(acc.any (fun p => p.1 == kv.1)) then acc ++ [kv] else acc)
    acc

/-- One iteration of the `while (currentError.cause !== undefined)` loop of
`analyzeErrorStack`, visiting node `e`. -/
def analyzeVisit (acc : AnalyzeAcc) (e : ErrNode) : AnalyzeAcc :=
  { acc with
    causeStack := acc.causeStack ++ [e.message],
    status := acc.status <|> e.status,
    code := acc.code <|> e.code,
    validationIssues := acc.validationIssues <|> e.messages,
    sensitive := acc.sensitive <|> e.sensitive,
    silent := acc.silent <|>
      (e.silent <|> (e.status.map (fun s => decide (s < 500)))),
    extraResponseFields :=
      mergeResponseFields acc.extraResponseFields (e.extraResponseFields.getD []),
    extraErrorIdentifiers :=
      mergeErrorIdentifiers acc.extraErrorIdentifiers
        (e.extraErrorIdentifiers.getD []) }

/-- Replace the first occurrence of `pat` in `cs` by `repl`
(JavaScript `String.prototype.replace` with a string pattern),
over character lists. -/
def replaceFirstAux (pat repl : List Char) : List Char → List Char
  | [] => []
  | c :: cs =>
    if pat.isPrefixOf (c :: cs) then repl ++ (c :: cs).drop pat.length
    else c :: replaceFirstAux pat repl cs

/-- Replace the first occurrence of `pat` in `s` by `repl`
(JavaScript `String.prototype.replace` with a string pattern). -/
def replaceFirst (s pat repl : String) : String :=
  String.mk (replaceFirstAux pat.toList repl.toList s.toList)

/-- `String.prototype.trim` over a character list. -/
def trimChars (cs : List Char) : List Char :=
  ((cs.dropWhile Char.isWhitespace).reverse.dropWhile Char.isWhitespace).reverse

/-- `String.prototype.split` with a single-character separator, over a
character list. -/
def splitLines : List Char → List (List Char)
  | [] => [[]]
  | c :: cs =>
    if c = '\n' then [] :: splitLines cs
    else
      match splitLines cs with
      | [] => [[c]]
      | l :: ls => (c :: l) :: ls

/-- The per-line transform of the `rootStackTrace` parser: keep only lines
that, after trimming, start with the frame marker, then strip the marker, a
`file://` prefix, and — when a working directory is available — rewrite
dependency paths and make the remaining path relative. -/
def processStackLine (cwd : Option String) (line : List Char) : List String :=
  let line := trimChars line
  if !("at ".toList.isPrefixOf line) then []
  else
    -- .replace(/^at\s+/, ""): drop the marker and the whitespace run after it
    let line := (line.drop 2).dropWhile Char.isWhitespace
    let line := replaceFirstAux "file://".toList [] line
    let line :=
      match cwd with
      | none => line
      | some c =>
        replaceFirstAux c.toList ".".toList
          (replaceFirstAux (c ++ "/node_modules/").toList [] line)
    [String.mk line]

/-- The stack-text parser applied to the last recorded stack. -/
def parseRootStackTrace (cwd : Option String) (stack : String) : List String :=
  (splitLines stack.toList).flatMap (processStackLine cwd)

/-- The `ErrorReport` produced by `analyzeErrorStack`. -/
structure ErrorReport where
  message : String
  code : String
  status : Int
  validationIssues : Option (List ValidationIssue)
  causeStack : List String
  rootStackTrace : List String
  sensitive : Bool
  silent : Bool
  extraResponseFields : List (String × Json)
  extraErrorIdentifiers : List (String × Json)

/-- `analyzeErrorStack` from `lib/reporting.ts`.  `cwd` models the ambient
`process.cwd()` (`none` when the call throws).  The sentinel-driven `while`
loop visits the top error and then each node reached through `cause`, i.e. it
folds `analyzeVisit` over the chain's nodes in traversal order. -/
def analyzeErrorStack (cwd : Option String) (topError : IBaseError) :
    ErrorReport :=
  let result := (topError.node :: topError.causes).foldl analyzeVisit {}
  { message := topError.node.message,
    status := result.status.getD 500,
    code := result.code.getD "E_UNEXPECTED_ERROR",
    validationIssues := result.validationIssues,
    causeStack := result.causeStack,
    sensitive := result.sensitive.getD false,
    silent := result.silent.getD false,
    rootStackTrace :=
      match result.lastStack with
      | none => []
      | some s => parseRootStackTrace cwd s,
    extraResponseFields := result.extraResponseFields,
    extraErrorIdentifiers := result.extraErrorIdentifiers }

/-- The `error` object of a serialized error response. -/
structure SerializedErrorReport where
  message : String
  code : String
  validationIssues : Option (List ValidationIssue)
  causeStack : Option (List String)
  rootStackTrace : Option (List String)

/-- A value of the top-level response object: either the serialized report
under the `error` key, or a spread extra response field. -/
inductive ResponseValue where
  | err (e : SerializedErrorReport) : ResponseValue
  | json (j : Json) : ResponseValue

/-- `serializeErrorReport` from `lib/reporting.ts`.  `options` models
`Partial<SerializeErrorReportOptions>`: `none` is an absent
`includeStackTrace`, which the defaults-spread resolves to `false`.  The
result is the top-level response object `{error: {...},
...report.extraResponseFields}` as an ordered field list. -/
def serializeErrorReport (report : ErrorReport) (options : Option Bool) :
    List (String × ResponseValue) :=
  let includeStackTrace := options.getD false
  let response : List (String × ResponseValue) :=
    [("error", ResponseValue.err
      { message := report.message,
        code := report.code,
        validationIssues := report.validationIssues,
        causeStack := if report.sensitive then none else some report.causeStack,
        rootStackTrace :=
          if includeStackTrace then some report.rootStackTrace else none })]
  report.extraResponseFields.foldl
    (fun acc kv => jsInsert acc kv.1 (ResponseValue.json kv.2)) response

/-! ## Specification-side definitions (stated from the spec's words, to be
compared against the source embeddings above) -/

/-- The nodes of a chain in traversal order (top error first). -/
def chainNodes (e : IBaseError) : List ErrNode :=
  e.node :: e.causes

/-- The claimed per-node `silent` resolution: an explicit `silent` value if
present, else `status < 500` if that node defines `status`, else
unresolved. -/
def silentResolution (n : ErrNode) : Option Bool :=
  match n.silent with
  | some b => some b
  | none =>
    match n.status with
    | some s => some (decide (s < 500))
    | none => none

/-- Whether a key occurs in a field list. -/
def hasKeyJ (k : String) (fs : List (String × Json)) : Bool :=
  fs.any (fun p => p.1 == k)

/-- The claimed per-field characterization of one optional field of the
shallow check: the field is absent, explicitly `undefined`, or satisfies its
per-field type constraint. -/
def fieldTypeOk (h : Heap) (v : JVal) (k : String) (ok : JVal → Bool) : Prop :=
  hasProp h v k = false ∨ getField h v k = .jundefined ∨ ok (getField h v k) = true

/-- The claimed characterization of `shallowIsIBaseError`: the value is a
non-null object and every directly-present field satisfies its per-field
constraint.  Note that no conjunct constrains `extraErrorIdentifiers`. -/
def shallowCheckSpec (h : Heap) (v : JVal) : Prop :=
  typeofIsObject v = true ∧ isNull v = false
    ∧ hasProp h v "message" = true ∧ isJStr (getField h v "message") = true
    ∧ fieldTypeOk h v "code" isJStr
    ∧ fieldTypeOk h v "status" isJNum
    ∧ fieldTypeOk h v "messages"
        (fun m => isJArr m && (getJArrD m).all (validIssueEntry h))
    ∧ fieldTypeOk h v "stack" isJStr
    ∧ fieldTypeOk h v "sensitive" isJBool
    ∧ fieldTypeOk h v "silent" isJBool
    ∧ fieldTypeOk h v "extraResponseFields"
        (fun x => typeofIsObject x && !isNull x && !hasProp h x "error")

/-! ## Concrete inputs used by the theorems -/

/-- Chain `A(top, status unset) -> B(status 418) -> C(status 500)`. -/
def chainABC : IBaseError :=
  { node := { message := "A" },
    causes := [{ message := "B", status := some 418 },
               { message := "C", status := some 500 }] }

/-- A raw stack text with one frame-marked line. -/
def errC1stack : String := "Error: hi\n    at foo (file:///app/x.ts:1:1)"

/-- An error with no cause whose stack text contains a frame-marked line. -/
def errC1 : IBaseError :=
  { node := { message := "hi", stack := some errC1stack }, causes := [] }

/-- A report whose extra response fields are well-formed. -/
def repC8 : ErrorReport :=
  { message := "m", code := "E_X", status := 500, validationIssues := none,
    causeStack := ["m"], rootStackTrace := [], sensitive := false,
    silent := false, extraResponseFields := [("a", Json.num 1)],
    extraErrorIdentifiers := [] }

/-- Heap for an error whose `messages` array holds an object with a
non-string `message` field: `{message: "m", messages: [{message: 42}]}`. -/
def hC2 : Heap :=
  [(0, [("message", .jstr "m"), ("messages", .jarr [.jobj 1])]),
   (1, [("message", .jnum 42)])]

/-- The heap after normalizing the object at address 0 of `hC2`: the
reconstructed error lives at address 2 and keeps the bad issue entry. -/
def hC2' : Heap :=
  [(0, [("message", .jstr "m"), ("messages", .jarr [.jobj 1])]),
   (1, [("message", .jnum 42)]),
   (2, [("message", .jstr "m"), ("messages", .jarr [.jobj 1])])]

/-- Heap for an error whose `messages` array holds a `null` entry:
`{message: "m", messages: [null]}`. -/
def hC3 : Heap :=
  [(0, [("message", .jstr "m"), ("messages", .jarr [.jnull])])]

/-- Heap for an error whose `extraErrorIdentifiers` contains the reserved
key `"message"`: `{message: "x", extraErrorIdentifiers: {message: 1}}`. -/
def hC4 : Heap :=
  [(0, [("message", .jstr "x"), ("extraErrorIdentifiers", .jobj 1)]),
   (1, [("message", .jnum 1)])]

/-- Heap for a shallow-invalid error carrying an object-valued
`extraResponseFields` with an `error` key:
`{message: "m", code: 5, extraResponseFields: {error: "boom", foo: 1}}`. -/
def hC10 : Heap :=
  [(0, [("message", .jstr "m"), ("code", .jnum 5),
        ("extraResponseFields", .jobj 1)]),
   (1, [("error", .jstr "boom"), ("foo", .jnum 1)])]

/-! ## Heap-evolution predicates -/

/-- The heap grew by allocations only: every existing object is unchanged. -/
def heapExtends (h h' : Heap) : Prop :=
  ∀ a fs, assocFind a h = some fs → assocFind a h' = some fs

/-- Every object existing in `h` still exists in `h'`, and only its `cause`
and `error` fields may have changed (the only properties `toIBaseError` ever
writes on pre-existing objects). -/
def heapPreserved (h h' : Heap) : Prop :=
  ∀ a fs, assocFind a h = some fs →
    ∃ fs', assocFind a h' = some fs' ∧
      ∀ k, k ≠ "cause" → k ≠ "error" → assocFind k fs' = assocFind k fs

/-! ## List and option helper lemmas -/

theorem orElse_assoc {α : Type} (a b c : Option α) :
    ((a <|> b) <|> c) = (a <|> (b <|> c)) := by
  cases a <;> rfl

theorem findSome?_cons_orElse {α β : Type} (f : α → Option β) (a : α)
    (l : List α) : (a :: l).findSome? f = (f a <|> l.findSome? f) := by
  cases hf : f a <;> simp [List.findSome?_cons, hf]

theorem findSome?_ext {α β : Type} (f g : α → Option β)
    (hfg : ∀ a, f a = g a) : ∀ l : List α, l.findSome? f = l.findSome? g := by
  intro l
  induction l with
  | nil => rfl
  | cons a t ih => simp [List.findSome?_cons, hfg, ih]

/-! ## Lemmas about the traversal fold of `analyzeErrorStack` -/

theorem foldl_visit_opt {α : Type} (g : AnalyzeAcc → Option α)
    (f : ErrNode → Option α)
    (hg : ∀ acc n, g (analyzeVisit acc n) = (g acc <|> f n)) :
    ∀ (l : List ErrNode) (acc : AnalyzeAcc),
      g (l.foldl analyzeVisit acc) = (g acc <|> l.findSome? f) := by
  intro l
  induction l with
  | nil => intro acc; simp [List.findSome?]
  | cons n t ih =>
    intro acc
    rw [List.foldl_cons, ih, hg, orElse_assoc, findSome?_cons_orElse]

theorem foldl_visit_causeStack :
    ∀ (l : List ErrNode) (acc : AnalyzeAcc),
      (l.foldl analyzeVisit acc).causeStack
        = acc.causeStack ++ l.map ErrNode.message := by
  intro l
  induction l with
  | nil => intro acc; simp
  | cons n t ih =>
    intro acc
    rw [List.foldl_cons, ih]
    show (acc.causeStack ++ [n.message]) ++ t.map ErrNode.message = _
    simp

theorem foldl_visit_lastStack :
    ∀ (l : List ErrNode) (acc : AnalyzeAcc),
      (l.foldl analyzeVisit acc).lastStack = acc.lastStack := by
  intro l
  induction l with
  | nil => intro acc; rfl
  | cons n t ih => intro acc; rw [List.foldl_cons, ih]; rfl

/-- `C1`: the claim says `rootStackTrace` is parsed from the raw stack text
of the deepest node and is non-empty for an error whose own stack has a
frame-marked line.  In the source, the loop never assigns the `lastStack`
variable it was supposed to maintain, so the report's `rootStackTrace` is
`[]` for every chain — even though the parser, had it been fed the stack
text, would have produced a non-empty frame list. -/
theorem analyzeErrorStack_rootStackTrace_always_empty :
    (∀ (cwd : Option String) (e : IBaseError),
      (analyzeErrorStack cwd e).rootStackTrace = []) ∧
    (analyzeErrorStack none errC1).rootStackTrace = [] ∧
    parseRootStackTrace none errC1stack = ["foo (/app/x.ts:1:1)"] := by
  have h1 : ∀ (cwd : Option String) (e : IBaseError),
      (analyzeErrorStack cwd e).rootStackTrace = [] := by
    intro cwd e
    show (match ((e.node :: e.causes).foldl analyzeVisit {}).lastStack with
      | none => []
      | some s => parseRootStackTrace cwd s) = []
    rw [foldl_visit_lastStack]
  exact ⟨h1, h1 none errC1, by decide⟩

/-! ## Claims about the first-write-wins aggregation -/

theorem analyzeErrorStack_status_def (cwd : Option String) (e : IBaseError) :
    (analyzeErrorStack cwd e).status
      = (((e.node :: e.causes).foldl analyzeVisit {}).status).getD 500 := rfl

theorem analyzeErrorStack_code_def (cwd : Option String) (e : IBaseError) :
    (analyzeErrorStack cwd e).code
      = (((e.node :: e.causes).foldl analyzeVisit {}).code).getD
          "E_UNEXPECTED_ERROR" := rfl

theorem analyzeErrorStack_validationIssues_def (cwd : Option String)
    (e : IBaseError) :
    (analyzeErrorStack cwd e).validationIssues
      = ((e.node :: e.causes).foldl analyzeVisit {}).validationIssues := rfl

theorem analyzeErrorStack_sensitive_def (cwd : Option String) (e : IBaseError) :
    (analyzeErrorStack cwd e).sensitive
      = (((e.node :: e.causes).foldl analyzeVisit {}).sensitive).getD false :=
  rfl

theorem analyzeErrorStack_silent_def (cwd : Option String) (e : IBaseError) :
    (analyzeErrorStack cwd e).silent
      = (((e.node :: e.causes).foldl analyzeVisit {}).silent).getD false := rfl

/-- `C5`: the report fields `status`, `code`, `validationIssues` and
`sensitive` are each resolved first-write-wins scanning from the top of the
chain downward, with the defaults `500`, `"E_UNEXPECTED_ERROR"` and `false`
applied only when no node defines the field; in particular the chain
`A(status unset) -> B(418) -> C(500)` reports status `418`. -/
theorem analyzeErrorStack_first_write_wins (cwd : Option String)
    (e : IBaseError) :
    (analyzeErrorStack cwd e).status
      = ((chainNodes e).findSome? ErrNode.status).getD 500 ∧
    (analyzeErrorStack cwd e).code
      = ((chainNodes e).findSome? ErrNode.code).getD "E_UNEXPECTED_ERROR" ∧
    (analyzeErrorStack cwd e).validationIssues
      = (chainNodes e).findSome? ErrNode.messages ∧
    (analyzeErrorStack cwd e).sensitive
      = ((chainNodes e).findSome? ErrNode.sensitive).getD false ∧
    (analyzeErrorStack none chainABC).status = 418 := by
  refine ⟨?_, ?_, ?_, ?_, by decide⟩
  · rw [analyzeErrorStack_status_def,
      foldl_visit_opt (fun a => a.status) ErrNode.status (fun _ _ => rfl)]
    rfl
  · rw [analyzeErrorStack_code_def,
      foldl_visit_opt (fun a => a.code) ErrNode.code (fun _ _ => rfl)]
    rfl
  · rw [analyzeErrorStack_validationIssues_def,
      foldl_visit_opt (fun a => a.validationIssues) ErrNode.messages
        (fun _ _ => rfl)]
    rfl
  · rw [analyzeErrorStack_sensitive_def,
      foldl_visit_opt (fun a => a.sensitive) ErrNode.sensitive
        (fun _ _ => rfl)]
    rfl

/-- `C6`: the report's `silent` flag is the first per-node resolved value
scanning from the top: a node's explicit `silent` if present, otherwise
`status < 500` if that node defines `status`, otherwise the scan continues;
`false` if no node resolves it. -/
theorem analyzeErrorStack_silent_resolution (cwd : Option String)
    (e : IBaseError) :
    (analyzeErrorStack cwd e).silent
      = ((chainNodes e).findSome? silentResolution).getD false := by
  rw [analyzeErrorStack_silent_def,
    foldl_visit_opt (fun a => a.silent)
      (fun n => (n.silent <|> (n.status.map (fun s => decide (s < 500)))))
      (fun _ _ => rfl),
    findSome?_ext _ silentResolution ?_]
  · rfl
  · intro n
    unfold silentResolution
    cases n.silent with
    | some b => rfl
    | none => cases n.status with
      | some s => rfl
      | none => rfl

/-- `C7`: the report's `causeStack` is exactly the messages of the visited
nodes in traversal order (top error down to root cause), its length is one
plus the number of cause links followed, and the report's `message` is the
top error's message. -/
theorem analyzeErrorStack_causeStack_messages (cwd : Option String)
    (e : IBaseError) :
    (analyzeErrorStack cwd e).causeStack = (chainNodes e).map ErrNode.message ∧
    (analyzeErrorStack cwd e).causeStack.length = 1 + e.causes.length ∧
    (analyzeErrorStack cwd e).message = e.node.message := by
  have h1 : (analyzeErrorStack cwd e).causeStack
      = (chainNodes e).map ErrNode.message := by
    show ((e.node :: e.causes).foldl analyzeVisit {}).causeStack = _
    rw [foldl_visit_causeStack]
    rfl
  refine ⟨h1, ?_, rfl⟩
  rw [h1]
  simp [chainNodes, Nat.add_comm]

/-! ## Association-list lemmas -/

theorem assocFind_append {α β : Type} [DecidableEq α] (k : α)
    (l1 l2 : List (α × β)) :
    assocFind k (l1 ++ l2) = (assocFind k l1 <|> assocFind k l2) := by
  induction l1 with
  | nil => simp [assocFind]
  | cons p t ih =>
    by_cases hp : p.1 = k <;> simp [assocFind, hp, ih]

theorem assocFind_none_iff_any {β : Type} (k : String)
    (fs : List (String × β)) :
    (assocFind k fs = none) ↔ (fs.any (fun p => p.1 == k) = false) := by
  induction fs with
  | nil => simp [assocFind]
  | cons p t ih =>
    by_cases hp : p.1 = k <;> simp [assocFind, hp, ih]

theorem assocFind_map_overwrite_ne {β : Type} (k' k : String) (hne : k' ≠ k)
    (v : β) :
    ∀ fs : List (String × β),
      assocFind k' (fs.map (fun p => if p.1 == k then (k, v) else p))
        = assocFind k' fs := by
  intro fs
  induction fs with
  | nil => rfl
  | cons p t ih =>
    simp only [beq_iff_eq] at ih ⊢
    by_cases hp : p.1 = k
    · simp [assocFind, hp, Ne.symm hne, ih]
    · simp [assocFind, hp, ih]

theorem assocFind_map_overwrite_self {β : Type} (k : String) (v : β) :
    ∀ fs : List (String × β), fs.any (fun p => p.1 == k) = true →
      assocFind k (fs.map (fun p => if p.1 == k then (k, v) else p))
        = some v := by
  intro fs
  induction fs with
  | nil => intro h; simp at h
  | cons p t ih =>
    intro h
    simp only [beq_iff_eq] at ih ⊢
    by_cases hp : p.1 = k
    · simp [assocFind, hp]
    · have ht : t.any (fun p => p.1 == k) = true := by
        simpa [List.any_cons, hp] using h
      simp [assocFind, hp, ih ht]

theorem assocFind_jsInsert_ne {β : Type} (k' k : String) (hne : k' ≠ k)
    (fs : List (String × β)) (v : β) :
    assocFind k' (jsInsert fs k v) = assocFind k' fs := by
  rw [jsInsert]
  split
  · exact assocFind_map_overwrite_ne k' k hne v fs
  · rw [assocFind_append]
    simp [assocFind, Ne.symm hne]

theorem assocFind_jsInsert_self {β : Type} (k : String)
    (fs : List (String × β)) (v : β) :
    assocFind k (jsInsert fs k v) = some v := by
  rw [jsInsert]
  split
  · rename_i hany
    exact assocFind_map_overwrite_self k v fs hany
  · rename_i hany
    rw [Bool.not_eq_true] at hany
    have hnone : assocFind k fs = none := (assocFind_none_iff_any k fs).mpr hany
    rw [assocFind_append, hnone]
    simp [assocFind]

/-! ## The `error` key never enters the aggregated extra response fields -/

theorem hasKeyJ_merge_no_error :
    ∀ (entries acc : List (String × Json)), hasKeyJ "error" acc = false →
      hasKeyJ "error" (mergeResponseFields acc entries) = false := by
  intro entries
  induction entries with
  | nil => intro acc h; exact h
  | cons kv t ih =>
    intro acc h
    refine ih
      (if kv.1 != "error" && !(acc.any (fun p => p.1 == kv.1))
        then acc ++ [kv] else acc) ?_
    split
    · rename_i hcond
      rw [Bool.and_eq_true] at hcond
      have hk : kv.1 ≠ "error" := by simpa using hcond.1
      unfold hasKeyJ at h ⊢
      rw [List.any_append, h]
      simp [hk]
    · exact h

theorem foldl_visit_extras_no_error :
    ∀ (l : List ErrNode) (acc : AnalyzeAcc),
      hasKeyJ "error" acc.extraResponseFields = false →
      hasKeyJ "error" ((l.foldl analyzeVisit acc).extraResponseFields)
        = false := by
  intro l
  induction l with
  | nil => intro acc h; exact h
  | cons n t ih =>
    intro acc h
    rw [List.foldl_cons]
    exact ih _ (hasKeyJ_merge_no_error _ _ h)

/-! ## Lemmas about the object spread in `serializeErrorReport` -/

theorem assocFind_spreadFold_of_not_mem (k : String) :
    ∀ (extras : List (String × Json)) (acc : List (String × ResponseValue)),
      extras.any (fun p => p.1 == k) = false →
      assocFind k
        (extras.foldl (fun a kw => jsInsert a kw.1 (ResponseValue.json kw.2)) acc)
        = assocFind k acc := by
  intro extras
  induction extras with
  | nil => intro acc _; rfl
  | cons e t ih =>
    intro acc h
    rw [List.any_cons, Bool.or_eq_false_iff] at h
    obtain ⟨h1, h2⟩ := h
    have hek : e.1 ≠ k := by
      intro hk; rw [hk] at h1; simp at h1
    simp only [List.foldl_cons]
    rw [ih _ h2, assocFind_jsInsert_ne k e.1 (Ne.symm hek)]

theorem assocFind_spreadFold_of_mem :
    ∀ (extras : List (String × Json)) (acc : List (String × ResponseValue)),
      (extras.map Prod.fst).Nodup →
      (∀ kw ∈ extras, acc.any (fun p => p.1 == kw.1) = false) →
      ∀ kv ∈ extras,
        assocFind kv.1
          (extras.foldl (fun a kw => jsInsert a kw.1 (ResponseValue.json kw.2)) acc)
          = some (ResponseValue.json kv.2) := by
  intro extras
  induction extras with
  | nil => intro acc _ _ kv hkv; cases hkv
  | cons e t ih =>
    intro acc hnd hacc kv hkv
    have hae : acc.any (fun p => p.1 == e.1) = false :=
      hacc e (List.mem_cons_self e t)
    have hins : jsInsert acc e.1 (ResponseValue.json e.2)
        = acc ++ [(e.1, ResponseValue.json e.2)] := by
      rw [jsInsert, if_neg]
      simp [hae]
    have hnd' : (e.1 :: t.map Prod.fst).Nodup := by simpa using hnd
    have hnotin : e.1 ∉ t.map Prod.fst := (List.nodup_cons.mp hnd').1
    simp only [List.foldl_cons]
    rcases List.mem_cons.mp hkv with rfl | hmem
    · have hkeys : t.any (fun p => p.1 == kv.1) = false := by
        rw [List.any_eq_false]
        intro x hx hc
        exact hnotin (by
          rw [List.mem_map]
          exact ⟨x, hx, by simpa using hc⟩)
      rw [assocFind_spreadFold_of_not_mem kv.1 t _ hkeys, hins,
        assocFind_append, (assocFind_none_iff_any kv.1 acc).mpr hae]
      simp [assocFind]
    · refine ih _ (List.nodup_cons.mp hnd').2 ?_ kv hmem
      intro kw hkw
      rw [hins, List.any_append,
        hacc kw (List.mem_cons_of_mem _ hkw)]
      have hke : e.1 ≠ kw.1 := by
        intro hk
        exact hnotin (by
          rw [List.mem_map]
          exact ⟨kw, hkw, hk.symm⟩)
      simp [hke]

/-- The `error` entry of the serialized response: unless a spread extra
response field overrides it (impossible when the key `error` is absent from
`report.extraResponseFields`), it is the serialized report object. -/
theorem serialize_error_entry (report : ErrorReport) (options : Option Bool)
    (h : hasKeyJ "error" report.extraResponseFields = false) :
    assocFind "error" (serializeErrorReport report options)
      = some (ResponseValue.err
          { message := report.message, code := report.code,
            validationIssues := report.validationIssues,
            causeStack :=
              if report.sensitive then none else some report.causeStack,
            rootStackTrace :=
              if options.getD false then some report.rootStackTrace
              else none }) := by
  simp only [serializeErrorReport]
  rw [assocFind_spreadFold_of_not_mem "error" _ _ h]
  rfl

/-- `C9`: the aggregated `extraResponseFields` of a report produced by
`analyzeErrorStack` never contains the key `error`, so the serialized
response's top-level `error` field is always the serialized report object
and is never overridden by a spread extra response field. -/
theorem analyzeErrorStack_extraResponseFields_no_error_key
    (cwd : Option String) (e : IBaseError) (opts : Option Bool) :
    hasKeyJ "error" (analyzeErrorStack cwd e).extraResponseFields = false ∧
    ∃ s, assocFind "error" (serializeErrorReport (analyzeErrorStack cwd e) opts)
        = some (ResponseValue.err s) := by
  have h1 : hasKeyJ "error" (analyzeErrorStack cwd e).extraResponseFields
      = false := by
    show hasKeyJ "error"
      (((e.node :: e.causes).foldl analyzeVisit {}).extraResponseFields) = false
    exact foldl_visit_extras_no_error _ _ rfl
  exact ⟨h1, ⟨_, serialize_error_entry (analyzeErrorStack cwd e) opts h1⟩⟩

/-- `C8`: for every report (satisfying the data-model invariant that its
extra response fields are a well-formed object without the reserved `error`
key) and every options value, the serialized response's `error` field
carries `message`, `code` and `validationIssues` from the report, its
`causeStack` is omitted exactly when the report is sensitive, its
`rootStackTrace` is present exactly when `includeStackTrace` is requested
(defaulting to false), and every extra response field of the report appears
at the top level alongside `error`. -/
theorem serializeErrorReport_contract (report : ErrorReport)
    (options : Option Bool)
    (hne : hasKeyJ "error" report.extraResponseFields = false)
    (hnd : (report.extraResponseFields.map Prod.fst).Nodup) :
    (∃ s, assocFind "error" (serializeErrorReport report options)
        = some (ResponseValue.err s) ∧
      s.message = report.message ∧
      s.code = report.code ∧
      s.validationIssues = report.validationIssues ∧
      (s.causeStack = none ↔ report.sensitive = true) ∧
      (report.sensitive = false → s.causeStack = some report.causeStack) ∧
      s.rootStackTrace.isSome = options.getD false ∧
      (options.getD false = true →
        s.rootStackTrace = some report.rootStackTrace)) ∧
    ∀ kv ∈ report.extraResponseFields,
      assocFind kv.1 (serializeErrorReport report options)
        = some (ResponseValue.json kv.2) := by
  constructor
  · refine ⟨_, serialize_error_entry report options hne, rfl, rfl, rfl,
      ?_, ?_, ?_, ?_⟩
    · cases hs : report.sensitive <;> simp
    · intro hs; simp [hs]
    · cases ho : options.getD false <;> simp [ho]
    · intro ho; simp [ho]
  · intro kv hkv
    simp only [serializeErrorReport]
    refine assocFind_spreadFold_of_mem _ _ hnd ?_ kv hkv
    intro kw hkw
    have hk : kw.1 ≠ "error" := by
      rw [hasKeyJ, List.any_eq_false] at hne
      intro hc
      exact hne kw hkw (by simpa using hc)
    simp [hk.symm]

/-- Witness for `C8` at a concrete report with one extra response field and
`includeStackTrace` requested. -/
theorem serializeErrorReport_contract_witness :
    (hasKeyJ "error" repC8.extraResponseFields = false ∧
      (repC8.extraResponseFields.map Prod.fst).Nodup) ∧
    ((∃ s, assocFind "error" (serializeErrorReport repC8 (some true))
        = some (ResponseValue.err s) ∧
      s.message = repC8.message ∧
      s.code = repC8.code ∧
      s.validationIssues = repC8.validationIssues ∧
      (s.causeStack = none ↔ repC8.sensitive = true) ∧
      (repC8.sensitive = false → s.causeStack = some repC8.causeStack) ∧
      s.rootStackTrace.isSome = (some true : Option Bool).getD false ∧
      ((some true : Option Bool).getD false = true →
        s.rootStackTrace = some repC8.rootStackTrace)) ∧
    ∀ kv ∈ repC8.extraResponseFields,
      assocFind kv.1 (serializeErrorReport repC8 (some true))
        = some (ResponseValue.json kv.2)) :=
  ⟨⟨rfl, by decide⟩,
    serializeErrorReport_contract repC8 (some true) rfl (by decide)⟩

/-! ## Claims about the normalizer -/

/-- `C2` (evidence of the divergence): on the input
`{message: "m", messages: [{message: 42}]}` the normalizer succeeds but the
reconstruction passes the issue entry through with only a `"message" in`
check, so the result still contains a non-string `message` field and fails
`isIBaseError` — contradicting the guarantee that the result always passes
the deep check. -/
theorem toIBaseError_result_fails_isIBaseError :
    toIBaseError 10 hC2 (.jobj 0) = .ok (.jobj 2, hC2') ∧
    isIBaseError 10 hC2' (.jobj 2) = false := ⟨rfl, rfl⟩

/-- `C3` (evidence of the divergence): on the input
`{message: "m", messages: [null]}` the reconstruction path evaluates
`"message" in null` (the entry passes the `typeof === "object"` test), which
throws a `TypeError` — contradicting the claim that `toIBaseError` never
throws. -/
theorem toIBaseError_throws_on_null_message_entry :
    toIBaseError 10 hC3 (.jobj 0) = .error JsErr.typeError := rfl

/-- Counterexample to `C4` as stated: the value
`{message: "x", extraErrorIdentifiers: {message: 1}}` has a reserved shape
field name as a key of `extraErrorIdentifiers`, yet `shallowIsIBaseError`
does not return false — the function performs no check on that field. -/
theorem shallowIsIBaseError_reserved_identifier_cex :
    ¬ shallowIsIBaseError hC4 (.jobj 0) = false := by decide

theorem isUndefined_eq_true_iff (x : JVal) : (isUndefined x = true) ↔ x = .jundefined := by
  cases x <;> simp [isUndefined]

/-- `C4` (amended): `shallowIsIBaseError` returns true iff the value is a
non-null object whose directly-present fields `message`, `code`, `status`,
`messages`, `stack`, `sensitive`, `silent` and `extraResponseFields` each
satisfy their per-field constraint; it performs no check at all on
`extraErrorIdentifiers`, so a reserved key there does not make it return
false (witnessed by the concrete conjunct). -/
theorem shallowIsIBaseError_characterization :
    (∀ (h : Heap) (v : JVal),
      shallowIsIBaseError h v = true ↔ shallowCheckSpec h v) ∧
    shallowIsIBaseError hC4 (.jobj 0) = true := by
  refine ⟨?_, by decide⟩
  intro h v
  unfold shallowIsIBaseError shallowCheckSpec fieldTypeOk
  simp only [Bool.and_eq_true, Bool.or_eq_true, Bool.not_eq_true',
    isUndefined_eq_true_iff, and_assoc, or_assoc]

/-! ## Heap-evolution lemmas for the normalizer -/

theorem assocFind_eq_none_of_forall {α β : Type} [DecidableEq α] (k : α)
    (l : List (α × β)) (hl : ∀ q ∈ l, q.1 ≠ k) : assocFind k l = none := by
  induction l with
  | nil => rfl
  | cons p t ih =>
    have hp : p.1 ≠ k := hl p (List.mem_cons_self p t)
    simp only [assocFind, if_neg hp]
    exact ih (fun q hq => hl q (List.mem_cons_of_mem p hq))

theorem le_foldl_max : ∀ (h : Heap) (n : Nat),
    n ≤ h.foldl (fun n p => max n (p.1 + 1)) n := by
  intro h
  induction h with
  | nil => intro n; exact Nat.le_refl n
  | cons p t ih =>
    intro n
    exact le_trans (Nat.le_max_left n (p.1 + 1)) (ih (max n (p.1 + 1)))

theorem mem_lt_foldl_max : ∀ (h : Heap) (n : Nat) (q : Addr × List (String × JVal)),
    q ∈ h → q.1 < h.foldl (fun n p => max n (p.1 + 1)) n := by
  intro h
  induction h with
  | nil => intro n q hq; cases hq
  | cons p t ih =>
    intro n q hq
    rw [List.foldl_cons]
    rcases List.mem_cons.mp hq with rfl | hq'
    · exact lt_of_lt_of_le
        (lt_of_lt_of_le (Nat.lt_succ_self q.1) (Nat.le_max_right n (q.1 + 1)))
        (le_foldl_max t (max n (q.1 + 1)))
    · exact ih (max n (p.1 + 1)) q hq'

theorem assocFind_freshAddr (h : Heap) : assocFind (freshAddr h) h = none :=
  assocFind_eq_none_of_forall _ h
    (fun q hq => Nat.ne_of_lt (mem_lt_foldl_max h 0 q hq))

theorem assocFind_append_left {α β : Type} [DecidableEq α] (k : α)
    {l1 : List (α × β)} (l2 : List (α × β)) {v : β}
    (hf : assocFind k l1 = some v) : assocFind k (l1 ++ l2) = some v := by
  rw [assocFind_append, hf]; rfl

theorem assocFind_filter_ne {β : Type} (k' k : String) (hne : k' ≠ k)
    (fs : List (String × β)) :
    assocFind k' (fs.filter (fun q => q.1 != k)) = assocFind k' fs := by
  induction fs with
  | nil => rfl
  | cons p t ih =>
    by_cases hp : p.1 = k
    · simp [List.filter_cons, hp, assocFind, Ne.symm hne, ih]
    · simp [List.filter_cons, hp, assocFind, ih]

theorem assocFind_filter_self {β : Type} (k : String)
    (fs : List (String × β)) :
    assocFind k (fs.filter (fun q => q.1 != k)) = none := by
  induction fs with
  | nil => rfl
  | cons p t ih =>
    by_cases hp : p.1 = k
    · simp [List.filter_cons, hp, ih]
    · simp [List.filter_cons, hp, assocFind, ih]

theorem assocFind_delField_other (h : Heap) (a x : Addr) (k : String)
    (hx : x ≠ a) : assocFind x (delField h a k) = assocFind x h := by
  induction h with
  | nil => rfl
  | cons p t ih =>
    simp only [delField, List.map_cons] at *
    by_cases hpa : p.1 = a
    · simp [assocFind, hpa, Ne.symm hx, ih]
    · simp only [if_neg hpa]
      by_cases hpx : p.1 = x <;> simp [assocFind, hpx, ih]

theorem assocFind_delField_same (h : Heap) (a : Addr) (k : String) :
    assocFind a (delField h a k)
      = (assocFind a h).map (fun fs => fs.filter (fun q => q.1 != k)) := by
  induction h with
  | nil => rfl
  | cons p t ih =>
    simp only [delField, List.map_cons] at *
    by_cases hpa : p.1 = a
    · simp [assocFind, hpa]
    · simp [assocFind, hpa, ih]

theorem assocFind_setField_other (h : Heap) (a x : Addr) (k : String)
    (v : JVal) (hx : x ≠ a) :
    assocFind x (setField h a k v) = assocFind x h := by
  induction h with
  | nil => rfl
  | cons p t ih =>
    simp only [setField, List.map_cons] at *
    by_cases hpa : p.1 = a
    · simp [assocFind, hpa, Ne.symm hx, ih]
    · simp only [if_neg hpa]
      by_cases hpx : p.1 = x <;> simp [assocFind, hpx, ih]

theorem assocFind_setField_same (h : Heap) (a : Addr) (k : String)
    (v : JVal) :
    assocFind a (setField h a k v)
      = (assocFind a h).map (fun fs => jsInsert fs k v) := by
  induction h with
  | nil => rfl
  | cons p t ih =>
    simp only [setField, List.map_cons] at *
    by_cases hpa : p.1 = a
    · simp [assocFind, hpa]
    · simp [assocFind, hpa, ih]

theorem heapExtends_refl (h : Heap) : heapExtends h h := fun _ _ hf => hf

theorem heapExtends_trans {h1 h2 h3 : Heap} (e12 : heapExtends h1 h2)
    (e23 : heapExtends h2 h3) : heapExtends h1 h3 :=
  fun a fs hf => e23 a fs (e12 a fs hf)

theorem heapExtends_append (h l : Heap) : heapExtends h (h ++ l) :=
  fun _ _ hf => assocFind_append_left _ l hf

theorem heapExtends_allocObj (h : Heap) (fs : List (String × JVal)) :
    heapExtends h (allocObj h fs).1 :=
  heapExtends_append h _

theorem heapPreserved_refl (h : Heap) : heapPreserved h h :=
  fun _ fs hf => ⟨fs, hf, fun _ _ _ => rfl⟩

theorem heapPreserved_trans {h1 h2 h3 : Heap} (p12 : heapPreserved h1 h2)
    (p23 : heapPreserved h2 h3) : heapPreserved h1 h3 := by
  intro a fs hf
  obtain ⟨fs2, hf2, hk2⟩ := p12 a fs hf
  obtain ⟨fs3, hf3, hk3⟩ := p23 a fs2 hf2
  exact ⟨fs3, hf3, fun k hc he => (hk3 k hc he).trans (hk2 k hc he)⟩

theorem heapExtends_preserved {h h' : Heap} (he : heapExtends h h') :
    heapPreserved h h' :=
  fun _ fs hf => ⟨fs, he _ fs hf, fun _ _ _ => rfl⟩

theorem delField_preserved (h : Heap) (a : Addr) (k : String)
    (hk : k = "cause" ∨ k = "error") : heapPreserved h (delField h a k) := by
  intro x fs hf
  by_cases hx : x = a
  · subst hx
    refine ⟨fs.filter (fun q => q.1 != k), ?_, ?_⟩
    · rw [assocFind_delField_same, hf]; rfl
    · intro k' hc he
      apply assocFind_filter_ne
      rcases hk with rfl | rfl
      · exact hc
      · exact he
  · exact ⟨fs, by rw [assocFind_delField_other h a x k hx]; exact hf,
      fun _ _ _ => rfl⟩

theorem setField_cause_preserved (h : Heap) (a : Addr) (v : JVal) :
    heapPreserved h (setField h a "cause" v) := by
  intro x fs hf
  by_cases hx : x = a
  · subst hx
    refine ⟨jsInsert fs "cause" v, ?_, ?_⟩
    · rw [assocFind_setField_same, hf]; rfl
    · intro k' hc _
      exact assocFind_jsInsert_ne k' "cause" hc fs v
  · exact ⟨fs, by rw [assocFind_setField_other h a x _ _ hx]; exact hf,
      fun _ _ _ => rfl⟩

theorem mapMessageEntry_extends (h : Heap) (m item : JVal) (h' : Heap)
    (hr : mapMessageEntry h m = .ok (item, h')) : heapExtends h h' := by
  unfold mapMessageEntry at hr
  split at hr
  · simp only [Except.ok.injEq, Prod.mk.injEq] at hr
    obtain ⟨-, rfl⟩ := hr
    exact heapExtends_allocObj _ _
  · split at hr
    · simp only [Except.ok.injEq, Prod.mk.injEq] at hr
      obtain ⟨-, rfl⟩ := hr
      exact heapExtends_refl h
    · split at hr
      · simp at hr
      · split at hr
        · simp at hr
        · simp only [Except.ok.injEq, Prod.mk.injEq] at hr
          obtain ⟨-, rfl⟩ := hr
          exact heapExtends_allocObj _ _

theorem mapMessages_extends :
    ∀ (l : List JVal) (h : Heap) (items : List JVal) (h' : Heap),
      mapMessages h l = .ok (items, h') → heapExtends h h' := by
  intro l
  induction l with
  | nil =>
    intro h items h' hr
    simp only [mapMessages, Except.ok.injEq, Prod.mk.injEq] at hr
    obtain ⟨-, rfl⟩ := hr
    exact heapExtends_refl h
  | cons m rest ih =>
    intro h items h' hr
    unfold mapMessages at hr
    split at hr
    · simp at hr
    · rename_i item1 h1 heq1
      split at hr
      · simp at hr
      · rename_i items2 h2 heq2
        simp only [Except.ok.injEq, Prod.mk.injEq] at hr
        obtain ⟨-, rfl⟩ := hr
        exact heapExtends_trans (mapMessageEntry_extends h m item1 h1 heq1)
          (ih h1 items2 h2 heq2)

theorem reconMessages_extends (h : Heap) (v : JVal)
    (fs : List (String × JVal)) (h' : Heap)
    (hr : reconMessages h v = .ok (fs, h')) : heapExtends h h' := by
  unfold reconMessages at hr
  split at hr
  · split at hr
    · simp at hr
    · rename_i items h1 heq
      simp only [Except.ok.injEq, Prod.mk.injEq] at hr
      obtain ⟨-, rfl⟩ := hr
      exact mapMessages_extends _ h items h1 heq
  · simp only [Except.ok.injEq, Prod.mk.injEq] at hr
    obtain ⟨-, rfl⟩ := hr
    exact heapExtends_refl h

theorem reconCause_preserved
    (recur : Heap → JVal → Except JsErr (JVal × Heap))
    (hrec : ∀ h v r h', recur h v = .ok (r, h') → heapPreserved h h')
    (h : Heap) (v : JVal) (fs : List (String × JVal)) (h' : Heap)
    (hr : reconCause recur h v = .ok (fs, h')) : heapPreserved h h' := by
  unfold reconCause at hr
  split at hr
  · split at hr
    · simp at hr
    · rename_i c1 h1 heq
      simp only [Except.ok.injEq, Prod.mk.injEq] at hr
      obtain ⟨-, rfl⟩ := hr
      exact hrec h _ c1 h1 heq
  · simp only [Except.ok.injEq, Prod.mk.injEq] at hr
    obtain ⟨-, rfl⟩ := hr
    exact heapPreserved_refl h

theorem reconExtra_preserved (h : Heap) (v : JVal) :
    heapPreserved h (reconExtra h v).2 := by
  unfold reconExtra
  dsimp only
  split
  · split
    · split
      · exact delField_preserved h _ "error" (Or.inr rfl)
      · exact heapPreserved_refl h
    · exact heapPreserved_refl h
  · exact heapPreserved_refl h

theorem inPlaceCauseFix_preserved
    (recur : Heap → JVal → Except JsErr (JVal × Heap))
    (hrec : ∀ h v r h', recur h v = .ok (r, h') → heapPreserved h h')
    (h : Heap) (a : Addr) (r : JVal) (h' : Heap)
    (hr : inPlaceCauseFix recur h a = .ok (r, h')) : heapPreserved h h' := by
  unfold inPlaceCauseFix at hr
  dsimp only at hr
  split at hr
  · split at hr
    · simp only [Except.ok.injEq, Prod.mk.injEq] at hr
      obtain ⟨-, rfl⟩ := hr
      exact delField_preserved h a "cause" (Or.inl rfl)
    · split at hr
      · simp at hr
      · rename_i c1 h1 heq
        simp only [Except.ok.injEq, Prod.mk.injEq] at hr
        obtain ⟨-, rfl⟩ := hr
        exact heapPreserved_trans (hrec h _ c1 h1 heq)
          (setField_cause_preserved h1 a c1)
  · simp only [Except.ok.injEq, Prod.mk.injEq] at hr
    obtain ⟨-, rfl⟩ := hr
    exact heapPreserved_refl h

theorem reconstruct_preserved
    (recur : Heap → JVal → Except JsErr (JVal × Heap))
    (hrec : ∀ h v r h', recur h v = .ok (r, h') → heapPreserved h h') :
    ∀ (h : Heap) (v : JVal) (r : JVal) (h' : Heap),
      reconstruct recur h v = .ok (r, h') → heapPreserved h h' := by
  intro h v r h' hr
  unfold reconstruct at hr
  split at hr
  · simp at hr
  · split at hr
    · simp at hr
    · rename_i msgsFs h1 heqmsgs
      split at hr
      · simp at hr
      · rename_i causeFs h2 heqcause
        simp only [Except.ok.injEq, Prod.mk.injEq] at hr
        obtain ⟨-, rfl⟩ := hr
        refine heapPreserved_trans
          (heapExtends_preserved (reconMessages_extends h v msgsFs h1 heqmsgs))
          (heapPreserved_trans
            (reconCause_preserved recur hrec h1 v causeFs h2 heqcause)
            (heapPreserved_trans (reconExtra_preserved h2 v)
              (heapExtends_preserved (heapExtends_allocObj _ _))))

theorem toIBaseError_preserved :
    ∀ (fuel : Nat) (h : Heap) (v : JVal) (r : JVal) (h' : Heap),
      toIBaseError fuel h v = .ok (r, h') → heapPreserved h h' := by
  intro fuel
  induction fuel with
  | zero => intro h v r h' hr; simp [toIBaseError] at hr
  | succ n ih =>
    intro h v r h' hr
    unfold toIBaseError at hr
    split at hr
    · simp only [Except.ok.injEq, Prod.mk.injEq] at hr
      obtain ⟨-, rfl⟩ := hr
      exact heapExtends_preserved (heapExtends_allocObj _ _)
    · split at hr
      · exact reconstruct_preserved (toIBaseError n) ih h v r h' hr
      · split at hr
        · exact inPlaceCauseFix_preserved (toIBaseError n) ih h _ r h' hr
        · simp only [Except.ok.injEq, Prod.mk.injEq] at hr
          obtain ⟨-, rfl⟩ := hr
          exact heapPreserved_refl h

theorem assocFind_reconScalar_ne (h : Heap) (v : JVal) (k : String)
    (ok : JVal → Bool) (k' : String) (hne : k' ≠ k) :
    assocFind k' (reconScalar h v k ok) = none := by
  unfold reconScalar
  split
  · simp [assocFind, Ne.symm hne]
  · rfl

theorem reconMessages_shape (h : Heap) (v : JVal)
    (fs : List (String × JVal)) (h' : Heap)
    (hr : reconMessages h v = .ok (fs, h')) :
    ∀ k', k' ≠ "messages" → assocFind k' fs = none := by
  unfold reconMessages at hr
  split at hr
  · split at hr
    · simp at hr
    · simp only [Except.ok.injEq, Prod.mk.injEq] at hr
      obtain ⟨rfl, -⟩ := hr
      intro k' hne
      simp [assocFind, Ne.symm hne]
  · simp only [Except.ok.injEq, Prod.mk.injEq] at hr
    obtain ⟨rfl, -⟩ := hr
    intro k' _
    rfl

theorem reconCause_shape (recur : Heap → JVal → Except JsErr (JVal × Heap))
    (h : Heap) (v : JVal) (fs : List (String × JVal)) (h' : Heap)
    (hr : reconCause recur h v = .ok (fs, h')) :
    ∀ k', k' ≠ "cause" → assocFind k' fs = none := by
  unfold reconCause at hr
  split at hr
  · split at hr
    · simp at hr
    · simp only [Except.ok.injEq, Prod.mk.injEq] at hr
      obtain ⟨rfl, -⟩ := hr
      intro k' hne
      simp [assocFind, Ne.symm hne]
  · simp only [Except.ok.injEq, Prod.mk.injEq] at hr
    obtain ⟨rfl, -⟩ := hr
    intro k' _
    rfl

/-- `C10`: whenever `toIBaseError` takes the reconstruction path on an
object `a` whose `extraResponseFields` is an object `b`, the returned
object's `extraResponseFields` is the very same object `b` (the same heap
address as the input's), the final heap has no `error` key on `b`, and if
`b` originally had an `error` key then `b`'s contents were mutated — so the
caller's original `extraResponseFields` object is changed in place on the
reconstruction path too. -/
theorem toIBaseError_reconstruction_aliases_extraResponseFields
    (fuel : Nat) (h h' : Heap) (a b : Addr) (fs ef : List (String × JVal))
    (r : JVal)
    (hA : assocFind a h = some fs)
    (hShallow : shallowIsIBaseError h (.jobj a) = false)
    (hERF : assocFind "extraResponseFields" fs = some (.jobj b))
    (hB : assocFind b h = some ef)
    (hRun : toIBaseError fuel h (.jobj a) = .ok (r, h')) :
    ∃ (c : Addr) (rfs ef' : List (String × JVal)),
      r = .jobj c ∧
      assocFind c h' = some rfs ∧
      assocFind "extraResponseFields" rfs = some (.jobj b) ∧
      assocFind b h' = some ef' ∧
      assocFind "error" ef' = none ∧
      ((assocFind "error" ef).isSome → ef' ≠ ef) := by
  cases fuel with
  | zero => simp [toIBaseError] at hRun
  | succ n =>
  unfold toIBaseError at hRun
  simp only [typeofIsObject, isNull, Bool.not_true, Bool.or_false,
    Bool.false_eq_true, if_false] at hRun
  rw [if_pos hShallow] at hRun
  unfold reconstruct at hRun
  dsimp only at hRun
  split at hRun
  · simp at hRun
  · rename_i msg heqmsg
    split at hRun
    · simp at hRun
    · rename_i msgsFs h1 heqmsgs
      split at hRun
      · simp at hRun
      · rename_i causeFs h2 heqcause
        simp only [Except.ok.injEq, Prod.mk.injEq] at hRun
        obtain ⟨rfl, rfl⟩ := hRun
        -- heap evolution up to the extraResponseFields handling
        have ext1 : heapExtends h h1 :=
          reconMessages_extends h (.jobj a) msgsFs h1 heqmsgs
        have pres2 : heapPreserved h1 h2 :=
          reconCause_preserved (toIBaseError n) (toIBaseError_preserved n)
            h1 (.jobj a) causeFs h2 heqcause
        have hA1 : assocFind a h1 = some fs := ext1 a fs hA
        have hB1 : assocFind b h1 = some ef := ext1 b ef hB
        obtain ⟨fs2, hA2, hfs2⟩ := pres2 a fs hA1
        obtain ⟨ef2, hB2, -⟩ := pres2 b ef hB1
        have hERF2 : assocFind "extraResponseFields" fs2
            = some (JVal.jobj b) := by
          rw [hfs2 "extraResponseFields" (by decide) (by decide)]
          exact hERF
        have hgf : getField h2 (.jobj a) "extraResponseFields"
            = JVal.jobj b := by
          simp [getField, objFields, hA2, hERF2]
        have hhp : hasProp h2 (.jobj a) "extraResponseFields" = true := by
          simp [hasProp, objFields, hA2, hERF2]
        have hextra : reconExtra h2 (.jobj a)
            = ([("extraResponseFields", JVal.jobj b)],
               if hasProp h2 (JVal.jobj b) "error" then delField h2 b "error"
               else h2) := by
          unfold reconExtra
          dsimp only
          rw [hgf, hhp]
          simp [isUndefined, isNull, typeofIsObject]
        rw [hextra]
        dsimp only
        -- the reconstructed field list
        have h_msg : assocFind "extraResponseFields"
            [("message", JVal.jstr msg)] = none := by
          simp [assocFind]
        have h_code : assocFind "extraResponseFields"
            (reconScalar h (.jobj a) "code" isJStr) = none :=
          assocFind_reconScalar_ne _ _ _ _ _ (by decide)
        have h_status : assocFind "extraResponseFields"
            (reconScalar h (.jobj a) "status" isJNum) = none :=
          assocFind_reconScalar_ne _ _ _ _ _ (by decide)
        have h_msgs : assocFind "extraResponseFields" msgsFs = none :=
          reconMessages_shape h (.jobj a) msgsFs h1 heqmsgs _ (by decide)
        have h_stack : assocFind "extraResponseFields"
            (reconScalar h1 (.jobj a) "stack" isJStr) = none :=
          assocFind_reconScalar_ne _ _ _ _ _ (by decide)
        have h_sens : assocFind "extraResponseFields"
            (reconScalar h1 (.jobj a) "sensitive" isJBool) = none :=
          assocFind_reconScalar_ne _ _ _ _ _ (by decide)
        have h_sil : assocFind "extraResponseFields"
            (reconScalar h1 (.jobj a) "silent" isJBool) = none :=
          assocFind_reconScalar_ne _ _ _ _ _ (by decide)
        have h_cause : assocFind "extraResponseFields" causeFs = none :=
          reconCause_shape (toIBaseError n) h1 (.jobj a) causeFs h2
            heqcause _ (by decide)
        have hef2none : hasProp h2 (JVal.jobj b) "error" = false →
            assocFind "error" ef2 = none := by
          intro hf
          rw [hasProp, objFields, hB2] at hf
          simp only [Option.getD_some] at hf
          cases hfind : assocFind "error" ef2 with
          | none => rfl
          | some v => rw [hfind] at hf; simp at hf
        by_cases hErrB : hasProp h2 (JVal.jobj b) "error" = true
        · -- a present `error` key on b is deleted in place
          rw [if_pos hErrB]
          generalize hFS : [("message", JVal.jstr msg)]
              ++ reconScalar h (JVal.jobj a) "code" isJStr
              ++ reconScalar h (JVal.jobj a) "status" isJNum
              ++ msgsFs
              ++ reconScalar h1 (JVal.jobj a) "stack" isJStr
              ++ reconScalar h1 (JVal.jobj a) "sensitive" isJBool
              ++ reconScalar h1 (JVal.jobj a) "silent" isJBool
              ++ causeFs
              ++ [("extraResponseFields", JVal.jobj b)] = FS
          refine ⟨freshAddr (delField h2 b "error"), FS,
            ef2.filter (fun q => q.1 != "error"), rfl, ?_, ?_, ?_, ?_, ?_⟩
          · unfold allocObj
            dsimp only
            rw [assocFind_append, assocFind_freshAddr, Option.none_orElse]
            simp [assocFind]
          · rw [← hFS]
            simp [assocFind_append, assocFind, h_msg, h_code, h_status,
              h_msgs, h_stack, h_sens, h_sil, h_cause]
          · unfold allocObj
            dsimp only
            apply assocFind_append_left
            rw [assocFind_delField_same, hB2]
            rfl
          · exact assocFind_filter_self "error" ef2
          · intro hiso heq'
            have hnone : assocFind "error" ef = none := by
              rw [← heq']
              exact assocFind_filter_self "error" ef2
            rw [hnone] at hiso
            simp at hiso
        · -- b had no `error` key: nothing deleted, contents unchanged
          rw [if_neg hErrB]
          rw [Bool.not_eq_true] at hErrB
          generalize hFS : [("message", JVal.jstr msg)]
              ++ reconScalar h (JVal.jobj a) "code" isJStr
              ++ reconScalar h (JVal.jobj a) "status" isJNum
              ++ msgsFs
              ++ reconScalar h1 (JVal.jobj a) "stack" isJStr
              ++ reconScalar h1 (JVal.jobj a) "sensitive" isJBool
              ++ reconScalar h1 (JVal.jobj a) "silent" isJBool
              ++ causeFs
              ++ [("extraResponseFields", JVal.jobj b)] = FS
          refine ⟨freshAddr h2, FS, ef2, rfl, ?_, ?_, ?_, ?_, ?_⟩
          · unfold allocObj
            dsimp only
            rw [assocFind_append, assocFind_freshAddr, Option.none_orElse]
            simp [assocFind]
          · rw [← hFS]
            simp [assocFind_append, assocFind, h_msg, h_code, h_status,
              h_msgs, h_stack, h_sens, h_sil, h_cause]
          · unfold allocObj
            dsimp only
            exact assocFind_append_left _ _ hB2
          · exact hef2none hErrB
          · intro hiso heq'
            rw [heq'] at hef2none
            rw [hef2none hErrB] at hiso
            simp at hiso

/-- The heap after normalizing the object at address 0 of `hC10`: the
`error` key has been deleted in place from the shared object at address 1,
and the reconstructed error at address 2 references that same object. -/
def hC10' : Heap :=
  [(0, [("message", .jstr "m"), ("code", .jnum 5),
        ("extraResponseFields", .jobj 1)]),
   (1, [("foo", .jnum 1)]),
   (2, [("message", .jstr "m"), ("extraResponseFields", .jobj 1)])]

/-- Witness for `C10` at the concrete input `hC10`: all hypotheses hold and
the aliasing/mutation conclusion follows by the theorem. -/
theorem toIBaseError_reconstruction_aliasing_witness :
    (assocFind 0 hC10
        = some [("message", JVal.jstr "m"), ("code", JVal.jnum 5),
                ("extraResponseFields", JVal.jobj 1)] ∧
      shallowIsIBaseError hC10 (.jobj 0) = false ∧
      assocFind "extraResponseFields"
          [("message", JVal.jstr "m"), ("code", JVal.jnum 5),
           ("extraResponseFields", JVal.jobj 1)] = some (JVal.jobj 1) ∧
      assocFind 1 hC10
        = some [("error", JVal.jstr "boom"), ("foo", JVal.jnum 1)] ∧
      toIBaseError 5 hC10 (.jobj 0) = .ok (.jobj 2, hC10')) ∧
    ∃ (c : Addr) (rfs ef' : List (String × JVal)),
      JVal.jobj 2 = .jobj c ∧
      assocFind c hC10' = some rfs ∧
      assocFind "extraResponseFields" rfs = some (.jobj 1) ∧
      assocFind 1 hC10' = some ef' ∧
      assocFind "error" ef' = none ∧
      ((assocFind "error"
          [("error", JVal.jstr "boom"), ("foo", JVal.jnum 1)]).isSome →
        ef' ≠ [("error", JVal.jstr "boom"), ("foo", JVal.jnum 1)]) :=
  ⟨⟨rfl, rfl, rfl, rfl, rfl⟩,
    toIBaseError_reconstruction_aliases_extraResponseFields 5 hC10 hC10' 0 1
      [("message", JVal.jstr "m"), ("code", JVal.jnum 5),
       ("extraResponseFields", JVal.jobj 1)]
      [("error", JVal.jstr "boom"), ("foo", JVal.jnum 1)]
      (.jobj 2) rfl rfl rfl rfl rfl⟩
